import Mathlib

/-!
Shallow embedding of the CultureChoice roulette-experiment core
(`src/user/components/roulette/miniBlockGenerator.js`,
`src/user/components/roulette/RouletteWheel.vue`,
`src/user/components/roulette/RouletteExperimentView.vue`).

The ambient `Math.random()` source is modelled as a stream of natural
numbers `Nat → Nat`; a JavaScript draw `Math.floor(Math.random() * n)`
(always an arbitrary value in `[0, n)`) is modelled as `r 0 % n`, and
consuming one draw advances the stream.  All functions that touch the
ambient source are written in state-passing style, returning the advanced
stream together with their result, so that the sequential consumption of
draws in the source is mirrored exactly.
-/

namespace CultureChoice

/-- The ambient process-wide random source (`Math.random`), as the stream of
integer draws it will produce. -/
abbrev RndStream : Type := Nat → Nat

/-- Advance the ambient stream past `k` consumed draws. -/
def RndStream.drop (r : RndStream) (k : Nat) : RndStream := fun n => r (n + k)

/-- `[arr[i], arr[j]] = [arr[j], arr[i]]` — the in-place swap used by every
Fisher–Yates loop in the source.  Out-of-range indices leave the list
unchanged (never reached by the source's loops, whose indices are in range). -/
def listSwap {α : Type} (l : List α) (i j : Nat) : List α :=
  if h : i < l.length ∧ j < l.length then
    (l.set i (l.get ⟨j, h.2⟩)).set j (l.get ⟨i, h.1⟩)
  else l

/-- The Fisher–Yates loop of `shuffleArray` / `generatePermutation`
(`miniBlockGenerator.js` lines 11–18 and 44–51): the counter runs from
`i` down to `1`, at counter `c` swapping position `c` with a drawn
position in `[0, c]`. -/
def fisherYatesAux {α : Type} (r : RndStream) : Nat → List α → List α × RndStream
  | 0, l => (l, r)
  | Nat.succ k, l =>
    fisherYatesAux (r.drop 1) k (listSwap l (k + 1) (r 0 % (k + 2)))

/-- `shuffleArray` (`miniBlockGenerator.js` lines 44–51): Fisher–Yates with
draws from the ambient source; consumes `length - 1` draws. -/
def shuffleArray {α : Type} (l : List α) (r : RndStream) : List α × RndStream :=
  fisherYatesAux r (l.length - 1) l

/-- `generatePermutation` (`miniBlockGenerator.js` lines 11–18): shuffles
`[0, 1, ..., n-1]`. -/
def generatePermutation (n : Nat) (r : RndStream) : List Nat × RndStream :=
  shuffleArray (List.range n) r

/-- `applyColumnPermutation` (`miniBlockGenerator.js` lines 26–37):
`result[j][i] = temp[j][permutation[i]]` for `i < permutation.length`,
remaining entries unchanged.  (Modelled for `permutation.length ≤ row.length`,
the only shape the source ever passes: both are 5.) -/
def applyColumnPermutation (matrix : List (List Nat)) (permutation : List Nat) :
    List (List Nat) :=
  matrix.map (fun row =>
    (List.range row.length).map (fun i =>
      if i < permutation.length then row.getD (permutation.getD i 0) 0
      else row.getD i 0))

/-- `matrix[row].reduce((sum, val) => sum + val, 0)`. -/
def rowSum (row : List Nat) : Nat := row.foldl (· + ·) 0

/-- `matrix.reduce((sum, row) => sum + row[col], 0)`. -/
def colSum (matrix : List (List Nat)) (col : Nat) : Nat :=
  matrix.foldl (fun sum row => sum + row.getD col 0) 0

/-- `expectedWins` constant of `validateMiniBlocks`. -/
def expectedWins : List Nat := [1, 2, 3, 4]

/-- `validateMiniBlocks` (`miniBlockGenerator.js` lines 58–82): dimension
check, per-row win-count check, and the no-all-loss/no-all-win column check. -/
def validateMiniBlocks (matrix : List (List Nat)) : Bool :=
  if matrix.length != 4 || matrix.any (fun row => row.length != 5) then false
  else if (List.range 4).any
      (fun row => rowSum (matrix.getD row []) != expectedWins.getD row 0) then false
  else if (List.range 5).any
      (fun col => colSum matrix col == 0 || colSum matrix col == 4) then false
  else true

/-- `winsPerRow` constant of `generateMiniBlocks`. -/
def winsPerRow : List Nat := [1, 2, 3, 4]

/-- The row-construction loop of `generateMiniBlocks` (lines 99–106): for
each win count `k`, shuffle the template `[1 × k, 0 × (5-k)]`. -/
def buildRows : RndStream → List Nat → List (List Nat) × RndStream
  | r, [] => ([], r)
  | r, k :: rest =>
    let p := shuffleArray (List.replicate k 1 ++ List.replicate (5 - k) 0) r
    let q := buildRows p.2 rest
    (p.1 :: q.1, q.2)

/-- One loop body of `generateMiniBlocks` (lines 93–110): build the four
rows, draw one joint column permutation, apply it. -/
def attemptMatrix (r : RndStream) : List (List Nat) × RndStream :=
  let rows := buildRows r winsPerRow
  let perm := generatePermutation 5 rows.2
  (applyColumnPermutation rows.1 perm.1, perm.2)

/-- The hardcoded fallback matrix (`miniBlockGenerator.js` lines 122–127). -/
def fallbackMatrix : List (List Nat) :=
  [[1, 0, 1, 0, 0],
   [1, 1, 0, 1, 0],
   [1, 1, 1, 0, 1],
   [1, 1, 1, 1, 0]]

/-- `maxAttempts` constant of `generateMiniBlocks`. -/
def maxAttempts : Nat := 1000

/-- The retry loop of `generateMiniBlocks` (lines 92–118), counting down the
remaining attempts: return the first candidate passing validation, the
fallback on exhaustion. -/
def generateMiniBlocksLoop : RndStream → Nat → List (List Nat) × RndStream
  | r, 0 => (fallbackMatrix, r)
  | r, Nat.succ k =>
    let a := attemptMatrix r
    if validateMiniBlocks a.1 then a else generateMiniBlocksLoop a.2 k

/-- `generateMiniBlocks` (`miniBlockGenerator.js` lines 89–131). -/
def generateMiniBlocks (r : RndStream) : List (List Nat) × RndStream :=
  generateMiniBlocksLoop r maxAttempts

/-- Stream position at the start of attempt `k` of the retry loop. -/
def attemptStream (r : RndStream) : Nat → RndStream
  | 0 => r
  | Nat.succ k => (attemptMatrix (attemptStream r k)).2

/-- The candidate matrix generated and validated by attempt `k` of the
retry loop of `generateMiniBlocks`. -/
def candidate (r : RndStream) (k : Nat) : List (List Nat) :=
  (attemptMatrix (attemptStream r k)).1

/-- `probabilities` constant of `generateTrialSequence` (line 153): the JS
literals `0.2, 0.4, 0.6, 0.8`, written in reduced numerator/denominator form
so that every comparison in the embedding is computable by reduction;
`probabilities_eq_literals` certifies they are exactly the literals. -/
def probabilities : List ℚ :=
  [Rat.mk' 1 5 (by decide) (by decide), Rat.mk' 2 5 (by decide) (by decide),
   Rat.mk' 3 5 (by decide) (by decide), Rat.mk' 4 5 (by decide) (by decide)]

/-- The `probabilities` constant denotes exactly the source literals. -/
theorem probabilities_eq_literals : probabilities = [0.2, 0.4, 0.6, 0.8] := by
  simp only [probabilities, Rat.mk'_eq_divInt, Rat.divInt_eq_div]
  norm_num

/-- One trial record as pushed by `generateTrialSequence` (lines 161–167 and
173–179). -/
structure Trial where
  miniBlock : Nat
  blockType : String
  probability : ℚ
  outcomeWin : Bool
  agency : Bool
deriving DecidableEq, Repr, Inhabited

/-- One element of `trialsByMiniBlock` (lines 182–186). -/
structure MiniBlockPair where
  agencyBlock : List Trial
  noAgencyBlock : List Trial
  miniBlockNumber : Nat
deriving DecidableEq, Repr, Inhabited

/-- The agency-block trials of mini-block `mb` before shuffling
(`generateTrialSequence` lines 159–168).  The JavaScript read
`miniBlockMatrix[probIndex][mb] === 1` evaluates to `false` whenever the
column index `mb` is out of range (`undefined === 1`), which
`List.get? … == some 1` models. -/
def agencyTrials (matrix : List (List Nat)) (mb : Nat) : List Trial :=
  (List.range 4).map (fun probIndex =>
    { miniBlock := mb + 1
      blockType := "agency"
      probability := probabilities.getD probIndex 0
      outcomeWin := (matrix.getD probIndex []).get? mb == some 1
      agency := true })

/-- The no-agency-block trials of mini-block `mb` before shuffling
(`generateTrialSequence` lines 171–180), carrying the same outcomes. -/
def noAgencyTrials (matrix : List (List Nat)) (mb : Nat) : List Trial :=
  (List.range 4).map (fun probIndex =>
    { miniBlock := mb + 1
      blockType := "noAgency"
      probability := probabilities.getD probIndex 0
      outcomeWin := (matrix.getD probIndex []).get? mb == some 1
      agency := false })

/-- Modelled from the spec: the `shuffle` imported from
`@/core/utils/randomization` (SMILE's randomization utility, code of this
repository not present under `src/`).  Per spec §4.2 step 4 it independently
and uniformly randomly shuffles the presentation order of a block, drawing
from the ambient random source; modelled as the same Fisher–Yates shuffle the
file itself uses for `shuffleArray`. -/
def smileShuffle {α : Type} (l : List α) (r : RndStream) : List α × RndStream :=
  shuffleArray l r

/-- The per-mini-block loop of `generateTrialSequence` (lines 157–187),
counting down the remaining mini-blocks. -/
def buildMiniBlockPairs (matrix : List (List Nat)) :
    RndStream → Nat → Nat → List MiniBlockPair
  | _, _, 0 => []
  | r, mb, Nat.succ remaining =>
    let pA := smileShuffle (agencyTrials matrix mb) r
    let pN := smileShuffle (noAgencyTrials matrix mb) pA.2
    { agencyBlock := pA.1, noAgencyBlock := pN.1, miniBlockNumber := mb + 1 }
      :: buildMiniBlockPairs matrix pN.2 (mb + 1) remaining

/-- `generateTrialSequence` (`miniBlockGenerator.js` lines 151–190): returns
`trialsByMiniBlock` and `miniBlockMatrix`. -/
def generateTrialSequence (r : RndStream) (numMiniBlocks : Nat := 5) :
    List MiniBlockPair × List (List Nat) :=
  let m := generateMiniBlocks r
  (buildMiniBlockPairs m.1 m.2 0 numMiniBlocks, m.1)

/-- One step of the seeded linear congruential generator of
`createBaseWheelPattern` (`RouletteWheel.vue` line 64). -/
def lcgNext (s : Nat) : Nat := (s * 9301 + 49297) % 233280

/-- The seeded Fisher–Yates loop of `createBaseWheelPattern`
(`RouletteWheel.vue` lines 69–72): at counter `c` the fresh LCG state `s'`
yields the draw `⌊(s' / 233280) · (c+1)⌋ = s' * (c+1) / 233280` (exact for
the states and counters that occur: the float computation of the source
never rounds across an integer boundary there). -/
def seededFisherYates : Nat → Nat → List Bool → List Bool
  | _, 0, l => l
  | s, Nat.succ k, l =>
    let s2 := lcgNext s
    seededFisherYates s2 k (listSwap l (k + 1) (s2 * (k + 2) / 233280))

/-- `createBaseWheelPattern` (`RouletteWheel.vue` lines 50–75 and
`RouletteExperimentView.vue` lines 607–632).  `ambient` is the process-wide
random source that is in scope but never consulted: the shuffle draws only
from the LCG seeded with `⌊probability * 1000⌋`. -/
def createBaseWheelPattern (ambient : RndStream) (probability : ℚ) : List Bool :=
  let winSegments : Nat := (round (probability * 40) : ℤ).toNat
  let segmentTypes := List.replicate winSegments true
    ++ List.replicate (40 - winSegments) false
  let seed : Nat := (⌊probability * 1000⌋ : ℤ).toNat
  seededFisherYates seed (segmentTypes.length - 1) segmentTypes

/-- `segmentAngle` constant (360 / 40 segments). -/
def segmentAngle : ℚ := 9

/-- The `targetSegments` computation of `getOutcomeRotation`
(`RouletteExperimentView.vue` lines 684–686): indices of the pattern whose
entry equals the desired outcome. -/
def targetSegmentsFor (pattern : List Bool) (outcome : Bool) : List Int :=
  ((List.range pattern.length).map (fun i =>
      if pattern.getD i false == outcome then (i : Int) else -1)).filter
    (fun i => i != -1)

/-- `getOutcomeRotation` (`RouletteExperimentView.vue` lines 679–694; the
`RouletteWheel.vue` lines 120–135 variant is the `withExtraSpins = true`
case).  The two `Math.random()` calls are modelled by `u1` (segment choice)
and `u2` (offset within the segment), rationals in `[0, 1)`. -/
def getOutcomeRotation (ambient : RndStream) (u1 u2 : ℚ) (withExtraSpins : Bool)
    (probability : ℚ) (wheelIndex : Nat) (outcome : Bool) : ℚ :=
  let baseSegmentTypes := createBaseWheelPattern ambient probability
  let wheelRotation : ℚ := (wheelIndex : ℚ) * 120
  let targetSegments := targetSegmentsFor baseSegmentTypes outcome
  let targetSegmentIndex :=
    targetSegments.getD (⌊u1 * (targetSegments.length : ℚ)⌋ : ℤ).toNat (-1)
  let baseAngle := (targetSegmentIndex : ℚ) * segmentAngle
    + u2 * segmentAngle + wheelRotation
  if withExtraSpins then baseAngle + 720 else baseAngle

/-! ### Permutation properties of the swap-based shuffles -/

/-- Replacing the `m`-th element by `x` and consing the old element is a
permutation of consing `x`. -/
theorem cons_get_set_perm {α : Type} (t : List α) (m : Nat) (hm : m < t.length) (x : α) :
    (t.get ⟨m, hm⟩ :: t.set m x).Perm (x :: t) := by
  induction t generalizing m with
  | nil => simp at hm
  | cons y s ih =>
    cases m with
    | zero => simpa using List.Perm.swap x y s
    | succ k =>
      have hk : k < s.length := by simpa using hm
      have step1 : (s.get ⟨k, hk⟩ :: y :: s.set k x).Perm (y :: s.get ⟨k, hk⟩ :: s.set k x) :=
        List.Perm.swap _ _ _
      have step2 : (y :: s.get ⟨k, hk⟩ :: s.set k x).Perm (y :: x :: s) :=
        (ih k hk).cons y
      have step3 : (y :: x :: s).Perm (x :: y :: s) := List.Perm.swap _ _ _
      simpa using (step1.trans step2).trans step3

/-- Writing `l[j]` at `i` and `l[i]` at `j` permutes `l`. -/
theorem set_get_set_perm {α : Type} (l : List α) (i j : Nat)
    (hi : i < l.length) (hj : j < l.length) :
    ((l.set i (l.get ⟨j, hj⟩)).set j (l.get ⟨i, hi⟩)).Perm l := by
  induction l generalizing i j with
  | nil => simp at hi
  | cons x t ih =>
    cases i with
    | zero =>
      cases j with
      | zero => simp
      | succ m =>
        have hm : m < t.length := by simpa using hj
        simpa using cons_get_set_perm t m hm x
    | succ n =>
      have hn : n < t.length := by simpa using hi
      cases j with
      | zero => simpa using cons_get_set_perm t n hn x
      | succ m =>
        have hm : m < t.length := by simpa using hj
        simpa using (ih n m hn hm).cons x

/-- `listSwap` permutes its argument. -/
theorem listSwap_perm {α : Type} (l : List α) (i j : Nat) : (listSwap l i j).Perm l := by
  unfold listSwap
  split
  next h => exact set_get_set_perm l i j h.1 h.2
  next => exact List.Perm.refl l

/-- The Fisher–Yates loop permutes its argument. -/
theorem fisherYatesAux_perm {α : Type} (r : RndStream) (n : Nat) (l : List α) :
    (fisherYatesAux r n l).1.Perm l := by
  induction n generalizing r l with
  | zero => exact List.Perm.refl l
  | succ k ih =>
    exact (ih (r.drop 1) (listSwap l (k + 1) (r 0 % (k + 2)))).trans
      (listSwap_perm l (k + 1) (r 0 % (k + 2)))

/-- `shuffleArray` permutes its argument. -/
theorem shuffleArray_perm {α : Type} (l : List α) (r : RndStream) :
    (shuffleArray l r).1.Perm l :=
  fisherYatesAux_perm r (l.length - 1) l

/-! ### Sums, counts and binary rows -/

/-- `reduce((sum, val) => sum + val, 0)` computes `List.sum`. -/
theorem rowSum_eq_sum (row : List Nat) : rowSum row = row.sum :=
  List.sum_eq_foldl.symm

/-- A row with only 0/1 entries. -/
def isBinaryRow (row : List Nat) : Prop := ∀ x ∈ row, x = 0 ∨ x = 1

/-- Reading a binary row anywhere (with default 0) yields 0 or 1. -/
theorem isBinaryRow_getD {row : List Nat} (h : isBinaryRow row) (k : Nat) :
    row.getD k 0 = 0 ∨ row.getD k 0 = 1 := by
  by_cases hk : k < row.length
  · rw [List.getD_eq_getElem row 0 hk]
    exact h _ (List.getElem_mem hk)
  · rw [List.getD_eq_default row 0 (Nat.le_of_not_lt hk)]
    exact Or.inl rfl

/-- In a binary row, the number of ones is the sum. -/
theorem count_one_of_binary {row : List Nat} (h : isBinaryRow row) :
    row.count 1 = row.sum := by
  induction row with
  | nil => rfl
  | cons x t ih =>
    have hx := h x (List.mem_cons_self x t)
    have ht : isBinaryRow t := fun y hy => h y (List.mem_cons_of_mem x hy)
    rcases hx with h0 | h1
    · subst h0; simp [List.count_cons, ih ht]
    · subst h1; simp [List.count_cons, ih ht, Nat.add_comm]

/-! ### Reindexing lemmas for `applyColumnPermutation` -/

/-- Mapping `getD` over the index range recovers the list. -/
theorem map_getD_range {α : Type} (l : List α) (d : α) :
    (List.range l.length).map (fun i => l.getD i d) = l := by
  induction l with
  | nil => rfl
  | cons x t ih =>
    rw [List.length_cons, List.range_succ_eq_map, List.map_cons, List.map_map]
    simp only [List.getD_cons_zero]
    have hfun : ((fun i => (x :: t).getD i d) ∘ Nat.succ) = (fun i => t.getD i d) := rfl
    rw [hfun, ih]

/-- Mapping a function of `perm`-indexed reads over the index range is
mapping it over `perm`. -/
theorem map_getD_range_comp {β : Type} (g : Nat → β) (perm : List Nat) :
    (List.range perm.length).map (fun i => g (perm.getD i 0)) = perm.map g := by
  induction perm with
  | nil => rfl
  | cons p ps ih =>
    rw [List.length_cons, List.range_succ_eq_map, List.map_cons, List.map_map]
    simp only [List.getD_cons_zero, List.map_cons]
    have hfun : ((fun i => g ((p :: ps).getD i 0)) ∘ Nat.succ)
        = (fun i => g (ps.getD i 0)) := rfl
    rw [hfun, ih]

/-! ### Characterisation of `validateMiniBlocks` -/

/-- `validateMiniBlocks` accepts exactly the 4×5 matrices whose row sums are
`[1,2,3,4]` and whose column sums avoid 0 and 4. -/
theorem validateMiniBlocks_eq_true (m : List (List Nat)) :
    validateMiniBlocks m = true ↔
      (m.length = 4 ∧ (∀ row ∈ m, row.length = 5)
        ∧ (∀ i, i < 4 → rowSum (m.getD i []) = expectedWins.getD i 0)
        ∧ (∀ c, c < 5 → colSum m c ≠ 0 ∧ colSum m c ≠ 4)) := by
  unfold validateMiniBlocks
  split
  next h1 =>
    simp only [Bool.or_eq_true, bne_iff_ne, ne_eq, List.any_eq_true] at h1
    constructor
    · intro hf; exact absurd hf (by simp)
    · rintro ⟨hlen, hrows, -, -⟩
      rcases h1 with h1 | ⟨row, hrow, hne⟩
      · exact absurd hlen h1
      · exact absurd (hrows row hrow) hne
  next h1 =>
    simp only [Bool.or_eq_true, bne_iff_ne, ne_eq, List.any_eq_true, not_or,
      not_exists, not_and, not_not] at h1
    split
    next h2 =>
      simp only [List.any_eq_true, List.mem_range, bne_iff_ne, ne_eq] at h2
      constructor
      · intro hf; exact absurd hf (by simp)
      · rintro ⟨-, -, hrowsum, -⟩
        obtain ⟨i, hi, hne⟩ := h2
        exact absurd (hrowsum i hi) hne
    next h2 =>
      simp only [List.any_eq_true, List.mem_range, bne_iff_ne, ne_eq, not_exists,
        not_and, not_not] at h2
      split
      next h3 =>
        simp only [List.any_eq_true, List.mem_range, Bool.or_eq_true, beq_iff_eq] at h3
        constructor
        · intro hf; exact absurd hf (by simp)
        · rintro ⟨-, -, -, hcol⟩
          obtain ⟨c, hc, hsum⟩ := h3
          rcases hsum with h0 | h4
          · exact absurd h0 (hcol c hc).1
          · exact absurd h4 (hcol c hc).2
      next h3 =>
        simp only [List.any_eq_true, List.mem_range, Bool.or_eq_true, beq_iff_eq,
          not_exists, not_and, not_or] at h3
        simp only [true_iff]
        refine ⟨h1.1, fun row hrow => h1.2 row hrow, fun i hi => h2 i hi,
          fun c hc => h3 c hc⟩

/-! ### The candidate matrices are binary -/

/-- Every row produced by the row-construction loop is a permutation of a
0/1 template. -/
theorem buildRows_mem (ks : List Nat) (r : RndStream) :
    ∀ row ∈ (buildRows r ks).1,
      ∃ k, k ∈ ks ∧ row.Perm (List.replicate k 1 ++ List.replicate (5 - k) 0) := by
  induction ks generalizing r with
  | nil => intro row hrow; simp [buildRows] at hrow
  | cons k rest ih =>
    intro row hrow
    simp only [buildRows] at hrow
    rcases List.mem_cons.mp hrow with h | h
    · exact ⟨k, List.mem_cons_self k rest, h ▸ shuffleArray_perm _ r⟩
    · obtain ⟨k0, hk0, hperm⟩ := ih _ row h
      exact ⟨k0, List.mem_cons_of_mem k hk0, hperm⟩

/-- Rows produced by the row-construction loop are binary. -/
theorem buildRows_binary (ks : List Nat) (r : RndStream) :
    ∀ row ∈ (buildRows r ks).1, isBinaryRow row := by
  intro row hrow x hx
  obtain ⟨k, -, hperm⟩ := buildRows_mem ks r row hrow
  rcases List.mem_append.mp (hperm.mem_iff.mp hx) with h | h
  · exact Or.inr (List.eq_of_mem_replicate h)
  · exact Or.inl (List.eq_of_mem_replicate h)

/-- `applyColumnPermutation` preserves binarity of rows. -/
theorem applyColumnPermutation_binary (matrix : List (List Nat)) (perm : List Nat)
    (h : ∀ row ∈ matrix, isBinaryRow row) :
    ∀ row ∈ applyColumnPermutation matrix perm, isBinaryRow row := by
  intro row hrow x hx
  unfold applyColumnPermutation at hrow
  obtain ⟨row0, hrow0, heq⟩ := List.mem_map.mp hrow
  subst heq
  obtain ⟨i, -, heq⟩ := List.mem_map.mp hx
  subst heq
  split
  · exact isBinaryRow_getD (h row0 hrow0) _
  · exact isBinaryRow_getD (h row0 hrow0) _

/-- Every candidate matrix of the retry loop has binary rows. -/
theorem attemptMatrix_binary (r : RndStream) :
    ∀ row ∈ (attemptMatrix r).1, isBinaryRow row := by
  unfold attemptMatrix
  exact applyColumnPermutation_binary _ _ (buildRows_binary winsPerRow r)

/-! ### Invariants of validated binary matrices -/

/-- Decomposition of a length-4 list. -/
theorem exists_four {α : Type} (l : List α) (h : l.length = 4) :
    ∃ a b c d, l = [a, b, c, d] := by
  match l, h with
  | [a, b, c, d], _ => exact ⟨a, b, c, d, rfl⟩

/-- A validated matrix with binary rows satisfies both design invariants:
row `i` has exactly `i+1` ones among its 5 entries, and every column sum
over the 4 rows is 1, 2 or 3. -/
theorem invariants_of_validated (M : List (List Nat))
    (hb : ∀ row ∈ M, isBinaryRow row) (hv : validateMiniBlocks M = true) :
    M.length = 4
      ∧ (∀ i, i < 4 → (M.getD i []).length = 5 ∧ (M.getD i []).count 1 = i + 1)
      ∧ (∀ c, c < 5 → colSum M c = 1 ∨ colSum M c = 2 ∨ colSum M c = 3) := by
  obtain ⟨hlen, hrows, hrowsum, hcol⟩ := (validateMiniBlocks_eq_true M).mp hv
  refine ⟨hlen, ?_, ?_⟩
  · intro i hi
    have hmem : M.getD i [] ∈ M := by
      have hi4 : i < M.length := hlen ▸ hi
      rw [List.getD_eq_getElem M [] hi4]
      exact List.getElem_mem hi4
    refine ⟨hrows _ hmem, ?_⟩
    have hcount := count_one_of_binary (hb _ hmem)
    have hsum := hrowsum i hi
    rw [rowSum_eq_sum] at hsum
    rw [hcount, hsum]
    interval_cases i <;> rfl
  · intro c hc
    obtain ⟨r0, r1, r2, r3, hM⟩ := exists_four M hlen
    subst hM
    have h0 := isBinaryRow_getD (hb r0 (by simp)) c
    have h1 := isBinaryRow_getD (hb r1 (by simp)) c
    have h2 := isBinaryRow_getD (hb r2 (by simp)) c
    have h3 := isBinaryRow_getD (hb r3 (by simp)) c
    have hform : colSum [r0, r1, r2, r3] c
        = r0.getD c 0 + r1.getD c 0 + r2.getD c 0 + r3.getD c 0 := by
      simp [colSum, List.foldl]
    have hne := hcol c hc
    rw [hform] at hne ⊢
    omega

/-! ### The retry loop -/

/-- A structurally valid outcome matrix: 4 rows, each of 5 binary entries. -/
def matrixWellFormed (M : List (List Nat)) : Prop :=
  M.length = 4 ∧ ∀ row ∈ M, row.length = 5 ∧ ∀ x ∈ row, x = 0 ∨ x = 1

/-- Every matrix the retry loop can return is structurally valid. -/
theorem generateMiniBlocksLoop_wellFormed (k : Nat) (r : RndStream) :
    matrixWellFormed (generateMiniBlocksLoop r k).1 := by
  induction k generalizing r with
  | zero =>
    exact show fallbackMatrix.length = 4
        ∧ (∀ row ∈ fallbackMatrix, row.length = 5 ∧ ∀ x ∈ row, x = 0 ∨ x = 1)
      from by decide
  | succ n ih =>
    simp only [generateMiniBlocksLoop]
    split
    next hv =>
      obtain ⟨hlen, hrows, -, -⟩ := (validateMiniBlocks_eq_true _).mp hv
      exact ⟨hlen, fun row hrow =>
        ⟨hrows row hrow, attemptMatrix_binary r row hrow⟩⟩
    next => exact ih _

/-- On the success path (the returned matrix passed validation), both
design invariants hold.  (They do NOT hold on the fallback path: the
hardcoded fallback matrix violates them, see the claim theorems below.) -/
theorem generateMiniBlocksLoop_invariants_of_validated (k : Nat) (r : RndStream)
    (hv : validateMiniBlocks (generateMiniBlocksLoop r k).1 = true) :
    (generateMiniBlocksLoop r k).1.length = 4
      ∧ (∀ i, i < 4 → ((generateMiniBlocksLoop r k).1.getD i []).length = 5
          ∧ ((generateMiniBlocksLoop r k).1.getD i []).count 1 = i + 1)
      ∧ (∀ c, c < 5 → colSum (generateMiniBlocksLoop r k).1 c = 1
          ∨ colSum (generateMiniBlocksLoop r k).1 c = 2
          ∨ colSum (generateMiniBlocksLoop r k).1 c = 3) := by
  induction k generalizing r with
  | zero =>
    exact absurd hv (show ¬validateMiniBlocks fallbackMatrix = true from by decide)
  | succ n ih =>
    simp only [generateMiniBlocksLoop] at hv ⊢
    split
    next h => exact invariants_of_validated _ (attemptMatrix_binary r) h
    next h =>
      rw [if_neg h] at hv
      exact ih _ hv

/-- Attempt streams chain: attempt `k+1` of `r` is attempt `k` of the
stream left over by attempt 0. -/
theorem attemptStream_succ_shift (r : RndStream) (k : Nat) :
    attemptStream ((attemptMatrix r).2) k = attemptStream r (k + 1) := by
  induction k with
  | zero => rfl
  | succ n ih => simp only [attemptStream, ih]

/-- Candidates chain accordingly. -/
theorem candidate_succ (r : RndStream) (k : Nat) :
    candidate ((attemptMatrix r).2) k = candidate r (k + 1) := by
  unfold candidate
  rw [attemptStream_succ_shift]

/-- If attempt `k < n` is the first to pass validation, the loop returns
its candidate. -/
theorem generateMiniBlocksLoop_eq_of_first_valid :
    ∀ (n k : Nat) (r : RndStream), k < n →
      validateMiniBlocks (candidate r k) = true →
      (∀ j, j < k → validateMiniBlocks (candidate r j) = false) →
      (generateMiniBlocksLoop r n).1 = candidate r k := by
  intro n
  induction n with
  | zero => intro k r hk; omega
  | succ m ih =>
    intro k r hk hvalid hprev
    cases k with
    | zero =>
      have h : validateMiniBlocks (attemptMatrix r).1 = true := hvalid
      simp only [generateMiniBlocksLoop]
      rw [if_pos h]
      rfl
    | succ k0 =>
      have h0 : validateMiniBlocks (attemptMatrix r).1 = false :=
        hprev 0 (Nat.succ_pos k0)
      simp only [generateMiniBlocksLoop]
      rw [if_neg (by simp [h0])]
      have hk0 : k0 < m := by omega
      have hvalid0 : validateMiniBlocks (candidate ((attemptMatrix r).2) k0) = true := by
        rw [candidate_succ]; exact hvalid
      have hprev0 : ∀ j, j < k0 →
          validateMiniBlocks (candidate ((attemptMatrix r).2) j) = false := by
        intro j hj
        rw [candidate_succ]
        exact hprev (j + 1) (by omega)
      rw [ih k0 ((attemptMatrix r).2) hk0 hvalid0 hprev0, candidate_succ]

/-- If every attempt fails validation, the loop returns the fallback. -/
theorem generateMiniBlocksLoop_eq_fallback :
    ∀ (n : Nat) (r : RndStream),
      (∀ k, k < n → validateMiniBlocks (candidate r k) = false) →
      (generateMiniBlocksLoop r n).1 = fallbackMatrix := by
  intro n
  induction n with
  | zero => intro r _; rfl
  | succ m ih =>
    intro r hall
    have h0 : validateMiniBlocks (attemptMatrix r).1 = false := hall 0 (Nat.succ_pos m)
    simp only [generateMiniBlocksLoop]
    rw [if_neg (by simp [h0])]
    exact ih ((attemptMatrix r).2) (fun k hk => by
      rw [candidate_succ]; exact hall (k + 1) (by omega))

/-! ### The all-zeros ambient stream exhausts the retry loop -/

/-- An attempt leaves the all-zeros stream all-zeros. -/
theorem attemptTail_zeroStream : (attemptMatrix (fun _ => 0)).2 = (fun _ => 0) :=
  funext fun _ => rfl

/-- Every attempt of the all-zeros stream starts from the all-zeros stream. -/
theorem attemptStream_zeroStream : ∀ k, attemptStream (fun _ => 0) k = (fun _ => 0) := by
  intro k
  induction k with
  | zero => rfl
  | succ n ih =>
    show (attemptMatrix (attemptStream (fun _ => 0) n)).2 = _
    rw [ih]
    exact attemptTail_zeroStream

/-- All candidates of the all-zeros stream coincide. -/
theorem candidate_zeroStream (k : Nat) :
    candidate (fun _ => 0) k = candidate (fun _ => 0) 0 := by
  unfold candidate
  rw [attemptStream_zeroStream k]
  rfl

/-- The candidate of the all-zeros stream fails validation (its third
column is all losses). -/
theorem candidate_zeroStream_invalid :
    validateMiniBlocks (candidate (fun _ => 0) 0) = false := by decide

/-! ### Claim theorems -/

/-- C2: the claim states that the hardcoded fallback matrix
`[[1,0,1,0,0],[1,1,0,1,0],[1,1,1,0,1],[1,1,1,1,0]]` satisfies both design
invariants.  It does not: row 0 contains 2 ones (the invariant demands 1),
rows 1 and 2 contain 3 and 4 ones (demanding 2 and 3), and column 0 sums
to 4 (all-win, forbidden); accordingly the code's own `validateMiniBlocks`
rejects it — contradicting the code's inline annotations
(`20% - 1 win`, …) and the spec. -/
theorem C2_fallbackMatrix_violates_invariants :
    (fallbackMatrix.getD 0 []).count 1 = 2
      ∧ (fallbackMatrix.getD 1 []).count 1 = 3
      ∧ (fallbackMatrix.getD 2 []).count 1 = 4
      ∧ colSum fallbackMatrix 0 = 4
      ∧ validateMiniBlocks fallbackMatrix = false := by decide

/-- C1: the claim states that every matrix returned by `generateMiniBlocks`
satisfies both design invariants, including on the path where the
1000-attempt retry loop is exhausted and the fallback matrix is returned.
Evaluating the code at a failing input refutes the fallback part: under the
all-zeros ambient stream every one of the 1000 candidates is the same
rejected matrix, the fallback is returned, and the fallback violates both
invariants (row 0 has 2 ones instead of 1; column 0 sums to 4). -/
theorem C1_fallback_path_violates_invariants :
    (generateMiniBlocks (fun _ => 0)).1 = fallbackMatrix
      ∧ ((generateMiniBlocks (fun _ => 0)).1.getD 0 []).count 1 = 2
      ∧ colSum (generateMiniBlocks (fun _ => 0)).1 0 = 4 := by
  have hfb : (generateMiniBlocks (fun _ => 0)).1 = fallbackMatrix :=
    generateMiniBlocksLoop_eq_fallback maxAttempts (fun _ => 0)
      (fun k _ => by rw [candidate_zeroStream k]; exact candidate_zeroStream_invalid)
  refine ⟨hfb, ?_, ?_⟩ <;> rw [hfb] <;> decide

/-- C6: `generateMiniBlocks` is total over every ambient random stream and
always returns a 4×5 binary matrix; it generates and validates at most
`maxAttempts = 1000` candidates, returns the first candidate that passes
validation, and returns the fixed fallback matrix exactly when all 1000
candidates fail validation. -/
theorem C6_generateMiniBlocks_total_first_valid_or_fallback :
    maxAttempts = 1000
      ∧ (∀ r : RndStream, matrixWellFormed (generateMiniBlocks r).1)
      ∧ (∀ (r : RndStream) (k : Nat), k < 1000 →
          validateMiniBlocks (candidate r k) = true →
          (∀ j, j < k → validateMiniBlocks (candidate r j) = false) →
          (generateMiniBlocks r).1 = candidate r k)
      ∧ (∀ r : RndStream,
          (∀ k, k < 1000 → validateMiniBlocks (candidate r k) = false) →
          (generateMiniBlocks r).1 = fallbackMatrix) := by
  refine ⟨rfl, ?_, ?_, ?_⟩
  · intro r
    exact generateMiniBlocksLoop_wellFormed maxAttempts r
  · intro r k hk hvalid hprev
    exact generateMiniBlocksLoop_eq_of_first_valid 1000 k r hk hvalid hprev
  · intro r hall
    exact generateMiniBlocksLoop_eq_fallback 1000 r hall

/-- Witness for C6: under the ambient stream `fun n => n` the very first
candidate passes validation and is returned. -/
theorem C6_generateMiniBlocks_total_first_valid_or_fallback_witness :
    (generateMiniBlocks (fun n => n)).1 = candidate (fun n => n) 0 :=
  C6_generateMiniBlocks_total_first_valid_or_fallback.2.2.1 (fun n => n) 0
    (by decide) (by decide) (fun j hj => absurd hj (Nat.not_lt_zero j))

/-- Applying a column permutation of `0..4` to a length-5 row preserves its
sum. -/
theorem permuteRow_sum (row : List Nat) (perm : List Nat)
    (hrow : row.length = 5) (hperm : perm.Perm (List.range 5)) :
    rowSum ((List.range row.length).map (fun i =>
      if i < perm.length then row.getD (perm.getD i 0) 0 else row.getD i 0))
      = rowSum row := by
  have hplen : perm.length = 5 := hperm.length_eq.trans (List.length_range 5)
  have hif : ∀ i ∈ List.range row.length,
      (if i < perm.length then row.getD (perm.getD i 0) 0 else row.getD i 0)
        = row.getD (perm.getD i 0) 0 := by
    intro i hi
    rw [List.mem_range, hrow] at hi
    rw [if_pos (by omega)]
  rw [List.map_congr_left hif]
  have h1 : (List.range row.length).map (fun i => row.getD (perm.getD i 0) 0)
      = perm.map (fun k => row.getD k 0) := by
    rw [hrow, ← hplen]
    exact map_getD_range_comp (fun k => row.getD k 0) perm
  have h2 : (perm.map (fun k => row.getD k 0)).sum
      = ((List.range 5).map (fun k => row.getD k 0)).sum :=
    (hperm.map (fun k => row.getD k 0)).sum_eq
  have h3 : (List.range 5).map (fun k => row.getD k 0) = row := by
    rw [← hrow]
    exact map_getD_range row 0
  rw [h1, rowSum_eq_sum, rowSum_eq_sum, h2, h3]

/-- C8: applying one column permutation of the column indices `0..4`
jointly to all rows of a 4×5 binary matrix preserves every row's sum. -/
theorem C8_applyColumnPermutation_preserves_row_sums
    (m : List (List Nat)) (p : List Nat)
    (hm : m.length = 4) (hrows : ∀ row ∈ m, row.length = 5)
    (hbin : ∀ row ∈ m, ∀ x ∈ row, x = 0 ∨ x = 1)
    (hp : p.Perm (List.range 5)) :
    ∀ j, rowSum ((applyColumnPermutation m p).getD j []) = rowSum (m.getD j []) := by
  intro j
  by_cases hj : j < m.length
  · have hjm : j < (applyColumnPermutation m p).length := by
      unfold applyColumnPermutation
      rw [List.length_map]
      exact hj
    rw [List.getD_eq_getElem _ [] hjm, List.getD_eq_getElem _ [] hj]
    unfold applyColumnPermutation
    rw [List.getElem_map]
    exact permuteRow_sum m[j] p (hrows m[j] (List.getElem_mem hj)) hp
  · have hjlen : m.length ≤ j := Nat.le_of_not_lt hj
    have hjlen2 : (applyColumnPermutation m p).length ≤ j := by
      unfold applyColumnPermutation
      rw [List.length_map]
      exact hjlen
    rw [List.getD_eq_default _ [] hjlen, List.getD_eq_default _ [] hjlen2]

/-- Witness for C8: the fallback matrix and the cyclic permutation
`[1,2,3,4,0]`, at row 0. -/
theorem C8_applyColumnPermutation_preserves_row_sums_witness :
    rowSum ((applyColumnPermutation fallbackMatrix [1, 2, 3, 4, 0]).getD 0 [])
      = rowSum (fallbackMatrix.getD 0 []) :=
  C8_applyColumnPermutation_preserves_row_sums fallbackMatrix [1, 2, 3, 4, 0]
    (by decide) (by decide) (by decide) (by decide) 0

/-! ### Evaluating `createBaseWheelPattern` at the four tiers -/

/-- Unfolding `createBaseWheelPattern` once the two rational computations
are evaluated. -/
theorem createBaseWheelPattern_eq (amb : RndStream) (p : ℚ) (seed win : Nat)
    (hwin : (round (p * 40) : ℤ).toNat = win) (hw40 : win ≤ 40)
    (hseed : (⌊p * 1000⌋ : ℤ).toNat = seed) :
    createBaseWheelPattern amb p
      = seededFisherYates seed 39
          (List.replicate win true ++ List.replicate (40 - win) false) := by
  simp only [createBaseWheelPattern, hwin, hseed]
  have hlen : (List.replicate win true ++ List.replicate (40 - win) false).length = 40 := by
    simp
    omega
  rw [hlen]

/-- The wheel pattern for probability 0.2. -/
theorem createBaseWheelPattern_tier0 (amb : RndStream) :
    createBaseWheelPattern amb 0.2
      = seededFisherYates 200 39
          (List.replicate 8 true ++ List.replicate 32 false) :=
  createBaseWheelPattern_eq amb 0.2 200 8 (by norm_num [round_eq]; try decide) (by norm_num)
    (by norm_num; try decide)

/-- The wheel pattern for probability 0.4. -/
theorem createBaseWheelPattern_tier1 (amb : RndStream) :
    createBaseWheelPattern amb 0.4
      = seededFisherYates 400 39
          (List.replicate 16 true ++ List.replicate 24 false) :=
  createBaseWheelPattern_eq amb 0.4 400 16 (by norm_num [round_eq]; try decide) (by norm_num)
    (by norm_num; try decide)

/-- The wheel pattern for probability 0.6. -/
theorem createBaseWheelPattern_tier2 (amb : RndStream) :
    createBaseWheelPattern amb 0.6
      = seededFisherYates 600 39
          (List.replicate 24 true ++ List.replicate 16 false) :=
  createBaseWheelPattern_eq amb 0.6 600 24 (by norm_num [round_eq]; try decide) (by norm_num)
    (by norm_num; try decide)

/-- The wheel pattern for probability 0.8. -/
theorem createBaseWheelPattern_tier3 (amb : RndStream) :
    createBaseWheelPattern amb 0.8
      = seededFisherYates 800 39
          (List.replicate 32 true ++ List.replicate 8 false) :=
  createBaseWheelPattern_eq amb 0.8 800 32 (by norm_num [round_eq]; try decide) (by norm_num)
    (by norm_num; try decide)

set_option maxRecDepth 8000 in
/-- C4: for every probability tier the segment pattern has exactly 40
entries and its number of `true` entries equals `round(p × 40)` — which is
exactly `p × 40` (8, 16, 24 or 32; no rounding error). -/
theorem C4_segment_pattern_length_and_win_count (amb : RndStream) (p : ℚ)
    (hp : p ∈ ([0.2, 0.4, 0.6, 0.8] : List ℚ)) :
    (createBaseWheelPattern amb p).length = 40
      ∧ ((createBaseWheelPattern amb p).count true : ℤ) = round (p * 40)
      ∧ ((round (p * 40) : ℤ) : ℚ) = p * 40 := by
  fin_cases hp
  · rw [createBaseWheelPattern_tier0 amb, show (round ((0.2 : ℚ) * 40) : ℤ) = 8
      from by norm_num [round_eq]]
    refine ⟨by decide, by decide, by norm_num⟩
  · rw [createBaseWheelPattern_tier1 amb, show (round ((0.4 : ℚ) * 40) : ℤ) = 16
      from by norm_num [round_eq]]
    refine ⟨by decide, by decide, by norm_num⟩
  · rw [createBaseWheelPattern_tier2 amb, show (round ((0.6 : ℚ) * 40) : ℤ) = 24
      from by norm_num [round_eq]]
    refine ⟨by decide, by decide, by norm_num⟩
  · rw [createBaseWheelPattern_tier3 amb, show (round ((0.8 : ℚ) * 40) : ℤ) = 32
      from by norm_num [round_eq]]
    refine ⟨by decide, by decide, by norm_num⟩

/-- Witness for C4: the 0.2 tier. -/
theorem C4_segment_pattern_length_and_win_count_witness :
    (0.2 : ℚ) ∈ ([0.2, 0.4, 0.6, 0.8] : List ℚ)
      ∧ (createBaseWheelPattern (fun _ => 0) 0.2).length = 40 :=
  ⟨List.mem_cons_self _ _,
    (C4_segment_pattern_length_and_win_count (fun _ => 0) 0.2
      (List.mem_cons_self _ _)).1⟩

/-- C5: the segment pattern is deterministic and independent of the
process-wide random source: for any two states of the ambient source and
any probability, the resulting 40-element sequences are identical (the
shuffle draws only from the LCG seeded from `⌊probability × 1000⌋`). -/
theorem C5_segment_pattern_deterministic (amb1 amb2 : RndStream) (p : ℚ) :
    createBaseWheelPattern amb1 p = createBaseWheelPattern amb2 p := rfl

/-! ### Outcome targeting -/

/-- Every entry of `targetSegments` is an in-range index of the pattern at
which the pattern shows the desired outcome. -/
theorem mem_targetSegmentsFor {pat : List Bool} {o : Bool} {e : Int}
    (h : e ∈ targetSegmentsFor pat o) :
    ∃ i : Nat, i < pat.length ∧ e = (i : Int) ∧ pat.get? i = some o := by
  unfold targetSegmentsFor at h
  have h2 := (List.mem_filter.mp h).2
  obtain ⟨i, hi, heq⟩ := List.mem_map.mp (List.mem_filter.mp h).1
  rw [List.mem_range] at hi
  by_cases hc : (pat.getD i false == o) = true
  · rw [if_pos hc] at heq
    refine ⟨i, hi, heq.symm, ?_⟩
    have hval : pat.getD i false = o := eq_of_beq hc
    rw [List.get?_eq_getElem?, List.getElem?_eq_getElem hi, ← hval,
      List.getD_eq_getElem pat false hi]
  · rw [if_neg hc] at heq
    exact absurd heq.symm (bne_iff_ne.mp h2)

set_option maxRecDepth 8000 in
/-- At every tier the pattern contains both outcomes, so `targetSegments`
is never empty. -/
theorem targetSegmentsFor_tier_pos (amb : RndStream) (p : ℚ) (o : Bool)
    (hp : p ∈ ([0.2, 0.4, 0.6, 0.8] : List ℚ)) :
    0 < (targetSegmentsFor (createBaseWheelPattern amb p) o).length := by
  fin_cases hp
  · rw [createBaseWheelPattern_tier0 amb]; cases o <;> decide
  · rw [createBaseWheelPattern_tier1 amb]; cases o <;> decide
  · rw [createBaseWheelPattern_tier2 amb]; cases o <;> decide
  · rw [createBaseWheelPattern_tier3 amb]; cases o <;> decide

/-- Unfolding `getOutcomeRotation` in the non-animated case. -/
theorem getOutcomeRotation_false_eq (amb : RndStream) (u1 u2 p : ℚ) (wi : Nat)
    (o : Bool) :
    getOutcomeRotation amb u1 u2 false p wi o
      = (((targetSegmentsFor (createBaseWheelPattern amb p) o).getD
            (⌊u1 * ((targetSegmentsFor (createBaseWheelPattern amb p) o).length : ℚ)⌋ : ℤ).toNat
            (-1) : ℤ) : ℚ) * 9
        + u2 * 9 + (wi : ℚ) * 120 := by
  simp only [getOutcomeRotation, segmentAngle, Bool.false_eq_true, if_false]

/-- The animated rotation is the non-animated one plus exactly two full
turns (720°). -/
theorem getOutcomeRotation_true_eq (amb : RndStream) (u1 u2 p : ℚ) (wi : Nat)
    (o : Bool) :
    getOutcomeRotation amb u1 u2 true p wi o
      = getOutcomeRotation amb u1 u2 false p wi o + 720 := by
  simp only [getOutcomeRotation, segmentAngle, Bool.false_eq_true, if_false, if_true]

/-- C9: at every tier, for any ambient random draws, the outcome-targeting
computation returns an angle `idx × 9 + u + wheelIndex × 120` with
`u = u2 × 9 ∈ [0, 9)` for some pattern index `idx` showing the desired
outcome; requiring an animated transition adds exactly 720°, so the two
angles are congruent mod 360. -/
theorem C9_getOutcomeRotation_lands_on_outcome (amb : RndStream) (u1 u2 p : ℚ)
    (wheelIndex : Nat) (outcome : Bool)
    (hp : p ∈ ([0.2, 0.4, 0.6, 0.8] : List ℚ))
    (hu10 : 0 ≤ u1) (hu11 : u1 < 1) (hu20 : 0 ≤ u2) (hu21 : u2 < 1) :
    ∃ idx : Nat,
      (createBaseWheelPattern amb p).get? idx = some outcome
      ∧ getOutcomeRotation amb u1 u2 false p wheelIndex outcome
          = (idx : ℚ) * 9 + u2 * 9 + (wheelIndex : ℚ) * 120
      ∧ 0 ≤ u2 * 9 ∧ u2 * 9 < 9
      ∧ getOutcomeRotation amb u1 u2 true p wheelIndex outcome
          = getOutcomeRotation amb u1 u2 false p wheelIndex outcome + 720 := by
  have hlen : 0 < (targetSegmentsFor (createBaseWheelPattern amb p) outcome).length :=
    targetSegmentsFor_tier_pos amb p outcome hp
  set L := targetSegmentsFor (createBaseWheelPattern amb p) outcome with hLdef
  have hfl0 : 0 ≤ ⌊u1 * (L.length : ℚ)⌋ :=
    Int.floor_nonneg.mpr (mul_nonneg hu10 (by positivity))
  have hflt : ⌊u1 * (L.length : ℚ)⌋ < (L.length : ℤ) := by
    rw [Int.floor_lt]
    push_cast
    exact mul_lt_of_lt_one_left (by exact_mod_cast hlen) hu11
  have hk : (⌊u1 * (L.length : ℚ)⌋ : ℤ).toNat < L.length := (Int.toNat_lt hfl0).mpr hflt
  have hmem : L.getD (⌊u1 * (L.length : ℚ)⌋ : ℤ).toNat (-1) ∈ L := by
    rw [List.getD_eq_getElem L (-1) hk]
    exact List.getElem_mem hk
  obtain ⟨i, hi, hei, hgeti⟩ := mem_targetSegmentsFor hmem
  refine ⟨i, hgeti, ?_, mul_nonneg hu20 (by norm_num), by linarith,
    getOutcomeRotation_true_eq amb u1 u2 p wheelIndex outcome⟩
  rw [getOutcomeRotation_false_eq amb u1 u2 p wheelIndex outcome, ← hLdef, hei]
  push_cast
  ring

/-- Witness for C9: tier 0.2, desired outcome `true`, wheel 0, draws 0. -/
theorem C9_getOutcomeRotation_lands_on_outcome_witness :
    ((0.2 : ℚ) ∈ ([0.2, 0.4, 0.6, 0.8] : List ℚ))
      ∧ ∃ idx : Nat,
          (createBaseWheelPattern (fun _ => 0) 0.2).get? idx = some true
          ∧ getOutcomeRotation (fun _ => 0) 0 0 false 0.2 0 true
              = (idx : ℚ) * 9 + 0 * 9 + ((0 : Nat) : ℚ) * 120
          ∧ 0 ≤ (0 : ℚ) * 9 ∧ (0 : ℚ) * 9 < 9
          ∧ getOutcomeRotation (fun _ => 0) 0 0 true 0.2 0 true
              = getOutcomeRotation (fun _ => 0) 0 0 false 0.2 0 true + 720 :=
  ⟨List.mem_cons_self _ _,
    C9_getOutcomeRotation_lands_on_outcome (fun _ => 0) 0 0 0.2 0 true
      (List.mem_cons_self _ _) (by norm_num) (by norm_num) (by norm_num) (by norm_num)⟩

/-! ### Structure of the trial sequence -/

/-- Membership in the unshuffled agency block. -/
theorem mem_agencyTrials {matrix : List (List Nat)} {mb : Nat} {t : Trial}
    (h : t ∈ agencyTrials matrix mb) :
    ∃ j, j < 4 ∧ t = Trial.mk (mb + 1) "agency" (probabilities.getD j 0)
      ((matrix.getD j []).get? mb == some 1) true := by
  unfold agencyTrials at h
  obtain ⟨j, hj, heq⟩ := List.mem_map.mp h
  exact ⟨j, List.mem_range.mp hj, heq.symm⟩

/-- Membership in the unshuffled no-agency block. -/
theorem mem_noAgencyTrials {matrix : List (List Nat)} {mb : Nat} {t : Trial}
    (h : t ∈ noAgencyTrials matrix mb) :
    ∃ j, j < 4 ∧ t = Trial.mk (mb + 1) "noAgency" (probabilities.getD j 0)
      ((matrix.getD j []).get? mb == some 1) false := by
  unfold noAgencyTrials at h
  obtain ⟨j, hj, heq⟩ := List.mem_map.mp h
  exact ⟨j, List.mem_range.mp hj, heq.symm⟩

/-- The four tier probabilities are pairwise distinct. -/
theorem probabilities_getD_inj :
    ∀ j, j < 4 → ∀ k, k < 4 →
      probabilities.getD j 0 = probabilities.getD k 0 → j = k := by decide

/-- Spec of the per-mini-block loop: it emits `count` pairs; the `i`-th
pair carries the 1-based number `mb + i + 1` and its blocks are
permutations of the unshuffled agency / no-agency blocks of mini-block
`mb + i`. -/
theorem buildMiniBlockPairs_get (matrix : List (List Nat)) :
    ∀ (count : Nat) (r : RndStream) (mb : Nat),
      (buildMiniBlockPairs matrix r mb count).length = count
      ∧ (∀ (i : Nat) (pair : MiniBlockPair),
          (buildMiniBlockPairs matrix r mb count).get? i = some pair →
            pair.miniBlockNumber = mb + i + 1
            ∧ pair.agencyBlock.Perm (agencyTrials matrix (mb + i))
            ∧ pair.noAgencyBlock.Perm (noAgencyTrials matrix (mb + i))) := by
  intro count
  induction count with
  | zero =>
    intro r mb
    exact ⟨rfl, fun i pair h => by simp [buildMiniBlockPairs] at h⟩
  | succ n ih =>
    intro r mb
    constructor
    · simp only [buildMiniBlockPairs, List.length_cons]
      exact congrArg (· + 1) (ih _ _).1
    · intro i pair h
      simp only [buildMiniBlockPairs] at h
      cases i with
      | zero =>
        rw [List.get?_cons_zero] at h
        cases h
        exact ⟨rfl, shuffleArray_perm _ _, shuffleArray_perm _ _⟩
      | succ i0 =>
        rw [List.get?_cons_succ] at h
        obtain ⟨h1, h2, h3⟩ := (ih _ _).2 i0 pair h
        have hidx : mb + 1 + i0 = mb + (i0 + 1) := by omega
        rw [hidx] at h1 h2 h3
        exact ⟨by omega, h2, h3⟩

/-- A trial of the shuffled agency block that carries tier `tIdx`'s
probability carries exactly the matrix outcome of `(tIdx, mb)`, together
with its agency tagging. -/
theorem agencyTrials_outcome {matrix : List (List Nat)} {mb tIdx : Nat} {t : Trial}
    (ht : tIdx < 4) (hmem : t ∈ agencyTrials matrix mb)
    (hprob : t.probability = probabilities.getD tIdx 0) :
    t.outcomeWin = ((matrix.getD tIdx []).get? mb == some 1) := by
  obtain ⟨j, hj, heq⟩ := mem_agencyTrials hmem
  subst heq
  have hjt : j = tIdx := probabilities_getD_inj j hj tIdx ht hprob
  rw [hjt]

/-- Same for the no-agency block. -/
theorem noAgencyTrials_outcome {matrix : List (List Nat)} {mb tIdx : Nat} {t : Trial}
    (ht : tIdx < 4) (hmem : t ∈ noAgencyTrials matrix mb)
    (hprob : t.probability = probabilities.getD tIdx 0) :
    t.outcomeWin = ((matrix.getD tIdx []).get? mb == some 1) := by
  obtain ⟨j, hj, heq⟩ := mem_noAgencyTrials hmem
  subst heq
  have hjt : j = tIdx := probabilities_getD_inj j hj tIdx ht hprob
  rw [hjt]

/-- C3: in every mini-block pair returned by `generateTrialSequence`, the
agency trial and the no-agency trial that carry the same tier probability
have identical `outcomeWin`, both equal to `matrix[tier][mb] === 1` —
regardless of where the two independent shuffles placed each trial. -/
theorem C3_paired_blocks_share_outcomes (r : RndStream)
    (numMiniBlocks mbIdx tIdx : Nat) (pair : MiniBlockPair) (ta tn : Trial)
    (hpair : (generateTrialSequence r numMiniBlocks).1.get? mbIdx = some pair)
    (ht : tIdx < 4)
    (hta : ta ∈ pair.agencyBlock) (htn : tn ∈ pair.noAgencyBlock)
    (hpa : ta.probability = probabilities.getD tIdx 0)
    (hpn : tn.probability = probabilities.getD tIdx 0) :
    ta.outcomeWin = tn.outcomeWin
      ∧ ta.outcomeWin
          = (((generateTrialSequence r numMiniBlocks).2.getD tIdx []).get? mbIdx
              == some 1) := by
  obtain ⟨-, hA, hN⟩ :=
    (buildMiniBlockPairs_get (generateMiniBlocks r).1 numMiniBlocks
      (generateMiniBlocks r).2 0).2 mbIdx pair hpair
  rw [Nat.zero_add] at hA hN
  have hamem : ta ∈ agencyTrials (generateMiniBlocks r).1 mbIdx := hA.mem_iff.mp hta
  have hnmem : tn ∈ noAgencyTrials (generateMiniBlocks r).1 mbIdx := hN.mem_iff.mp htn
  have hout1 := agencyTrials_outcome ht hamem hpa
  have hout2 := noAgencyTrials_outcome ht hnmem hpn
  exact ⟨hout1.trans hout2.symm, hout1⟩

/-- Witness for C3: mini-block pair 0 of `generateTrialSequence` under the
stream `fun n => n`, at tier 0.2. -/
theorem C3_paired_blocks_share_outcomes_witness :
    (Trial.mk 1 "agency" (probabilities.getD 0 0) false true).outcomeWin
        = (Trial.mk 1 "noAgency" (probabilities.getD 0 0) false false).outcomeWin
      ∧ (Trial.mk 1 "agency" (probabilities.getD 0 0) false true).outcomeWin
          = (((generateTrialSequence (fun n => n) 1).2.getD 0 []).get? 0 == some 1) :=
  C3_paired_blocks_share_outcomes (fun n => n) 1 0 0
    ((generateTrialSequence (fun n => n) 1).1.getD 0 default)
    (Trial.mk 1 "agency" (probabilities.getD 0 0) false true)
    (Trial.mk 1 "noAgency" (probabilities.getD 0 0) false false)
    (by decide) (by decide) (by decide) (by decide) (by decide) (by decide)

/-- The unshuffled agency block has 4 trials. -/
theorem agencyTrials_length (matrix : List (List Nat)) (mb : Nat) :
    (agencyTrials matrix mb).length = 4 := by
  unfold agencyTrials
  simp

/-- The unshuffled no-agency block has 4 trials. -/
theorem noAgencyTrials_length (matrix : List (List Nat)) (mb : Nat) :
    (noAgencyTrials matrix mb).length = 4 := by
  unfold noAgencyTrials
  simp

/-- Each tier probability occurs exactly once in the unshuffled agency
block. -/
theorem agencyTrials_countP (matrix : List (List Nat)) (mb : Nat) (p : ℚ)
    (hp : p ∈ probabilities) :
    (agencyTrials matrix mb).countP (fun t => t.probability == p) = 1 := by
  unfold agencyTrials
  rw [show List.range 4 = [0, 1, 2, 3] from rfl]
  fin_cases hp <;> simp [List.countP_cons] <;> decide

/-- Each tier probability occurs exactly once in the unshuffled no-agency
block. -/
theorem noAgencyTrials_countP (matrix : List (List Nat)) (mb : Nat) (p : ℚ)
    (hp : p ∈ probabilities) :
    (noAgencyTrials matrix mb).countP (fun t => t.probability == p) = 1 := by
  unfold noAgencyTrials
  rw [show List.range 4 = [0, 1, 2, 3] from rfl]
  fin_cases hp <;> simp [List.countP_cons] <;> decide

/-- Tags of the unshuffled agency block. -/
theorem agencyTrials_flags {matrix : List (List Nat)} {mb : Nat} {t : Trial}
    (h : t ∈ agencyTrials matrix mb) :
    t.agency = true ∧ t.blockType = "agency" ∧ t.miniBlock = mb + 1 := by
  obtain ⟨j, -, heq⟩ := mem_agencyTrials h
  subst heq
  exact ⟨rfl, rfl, rfl⟩

/-- Tags of the unshuffled no-agency block. -/
theorem noAgencyTrials_flags {matrix : List (List Nat)} {mb : Nat} {t : Trial}
    (h : t ∈ noAgencyTrials matrix mb) :
    t.agency = false ∧ t.blockType = "noAgency" ∧ t.miniBlock = mb + 1 := by
  obtain ⟨j, -, heq⟩ := mem_noAgencyTrials h
  subst heq
  exact ⟨rfl, rfl, rfl⟩

/-- C7: `generateTrialSequence r 5` returns exactly 5 mini-block pairs; in
each pair both blocks have exactly 4 trials with each probability tier
occurring exactly once; agency-block trials carry `agency = true` and
`blockType = "agency"`, no-agency-block trials carry `agency = false` and
`blockType = "noAgency"`; the pair carries the 1-based mini-block number. -/
theorem C7_trial_sequence_structure (r : RndStream) :
    (generateTrialSequence r 5).1.length = 5
      ∧ (∀ (i : Nat) (pair : MiniBlockPair),
          (generateTrialSequence r 5).1.get? i = some pair →
            pair.miniBlockNumber = i + 1
            ∧ pair.agencyBlock.length = 4
            ∧ pair.noAgencyBlock.length = 4
            ∧ (∀ p ∈ probabilities,
                pair.agencyBlock.countP (fun t => t.probability == p) = 1
                ∧ pair.noAgencyBlock.countP (fun t => t.probability == p) = 1)
            ∧ (∀ t ∈ pair.agencyBlock,
                t.agency = true ∧ t.blockType = "agency" ∧ t.miniBlock = i + 1)
            ∧ (∀ t ∈ pair.noAgencyBlock,
                t.agency = false ∧ t.blockType = "noAgency" ∧ t.miniBlock = i + 1)) := by
  have hspec := buildMiniBlockPairs_get (generateMiniBlocks r).1 5
    (generateMiniBlocks r).2 0
  refine ⟨hspec.1, ?_⟩
  intro i pair hpair
  obtain ⟨h1, hA, hN⟩ := hspec.2 i pair hpair
  rw [Nat.zero_add] at h1 hA hN
  refine ⟨h1, ?_, ?_, ?_, ?_, ?_⟩
  · rw [hA.length_eq]
    exact agencyTrials_length _ _
  · rw [hN.length_eq]
    exact noAgencyTrials_length _ _
  · intro p hp
    exact ⟨(List.Perm.countP_eq _ hA).trans (agencyTrials_countP _ _ p hp),
      (List.Perm.countP_eq _ hN).trans (noAgencyTrials_countP _ _ p hp)⟩
  · intro t ht
    exact agencyTrials_flags (hA.mem_iff.mp ht)
  · intro t ht
    exact noAgencyTrials_flags (hN.mem_iff.mp ht)

/-- Witness for C7: the first pair of the sequence generated under the
stream `fun n => n`. -/
theorem C7_trial_sequence_structure_witness :
    ((generateTrialSequence (fun n => n) 5).1.getD 0 default).miniBlockNumber = 1 :=
  ((C7_trial_sequence_structure (fun n => n)).2 0
    ((generateTrialSequence (fun n => n) 5).1.getD 0 default) (by decide)).1

/-- C10: for `numMiniBlocks > 5` the sequence still has `numMiniBlocks`
pairs, and in every pair beyond the fifth every trial of both blocks has
`outcomeWin = false`: the read `matrix[probIndex][mb]` is out of range and
the out-of-range value compares unequal to 1. -/
theorem C10_extra_miniBlocks_all_losses (r : RndStream) (numMiniBlocks : Nat)
    (h5 : 5 < numMiniBlocks) :
    (generateTrialSequence r numMiniBlocks).1.length = numMiniBlocks
      ∧ (∀ (mbIdx : Nat) (pair : MiniBlockPair), 5 ≤ mbIdx →
          (generateTrialSequence r numMiniBlocks).1.get? mbIdx = some pair →
          (∀ t ∈ pair.agencyBlock, t.outcomeWin = false)
          ∧ (∀ t ∈ pair.noAgencyBlock, t.outcomeWin = false)) := by
  have hspec := buildMiniBlockPairs_get (generateMiniBlocks r).1 numMiniBlocks
    (generateMiniBlocks r).2 0
  refine ⟨hspec.1, ?_⟩
  intro mbIdx pair hmb hpair
  obtain ⟨-, hA, hN⟩ := hspec.2 mbIdx pair hpair
  rw [Nat.zero_add] at hA hN
  have hwf : matrixWellFormed (generateMiniBlocks r).1 :=
    generateMiniBlocksLoop_wellFormed maxAttempts r
  have hrownone : ∀ j, j < 4 →
      ((generateMiniBlocks r).1.getD j []).get? mbIdx = none := by
    intro j hj
    have hjlen : j < (generateMiniBlocks r).1.length := by
      rw [hwf.1]
      exact hj
    have hrow : (generateMiniBlocks r).1.getD j [] ∈ (generateMiniBlocks r).1 := by
      rw [List.getD_eq_getElem _ [] hjlen]
      exact List.getElem_mem hjlen
    have hrl : ((generateMiniBlocks r).1.getD j []).length = 5 := (hwf.2 _ hrow).1
    rw [List.get?_eq_getElem?]
    exact List.getElem?_eq_none (by omega)
  constructor
  · intro t ht
    obtain ⟨j, hj, heq⟩ := mem_agencyTrials (hA.mem_iff.mp ht)
    subst heq
    show (((generateMiniBlocks r).1.getD j []).get? mbIdx == some 1) = false
    rw [hrownone j hj]
    rfl
  · intro t ht
    obtain ⟨j, hj, heq⟩ := mem_noAgencyTrials (hN.mem_iff.mp ht)
    subst heq
    show (((generateMiniBlocks r).1.getD j []).get? mbIdx == some 1) = false
    rw [hrownone j hj]
    rfl

/-- Witness for C10: seven mini-blocks. -/
theorem C10_extra_miniBlocks_all_losses_witness :
    (generateTrialSequence (fun n => n) 7).1.length = 7 :=
  (C10_extra_miniBlocks_all_losses (fun n => n) 7 (by decide)).1

end CultureChoice
